import Mathlib

/-!
Verification of the audio timeline assembly core in
app/services/audio_processor.py.

A pydub AudioSegment is embedded as a list of integer samples at
millisecond resolution: list indices are millisecond offsets, so pydub's
millisecond slicing seg[a:b] becomes List.take (b - a) after List.drop a.
pydub's gain-curve detail inside fade_in and fade_out is abstracted to a
linear integer amplitude ramp; every property proved below depends only on
the facts that a fade preserves length and leaves samples outside the fade
window unchanged, which hold for pydub's implementation as well.
Python text is embedded as List Char, and str.lower is modelled on the
ASCII letter range (the overlap marker searched for is pure ASCII).
-/

namespace AudioProcessor

/-- Python strings are embedded as lists of characters. -/
abbrev Str := List Char

/-- Configuration constant self.MIN_DURATION_MS = 60 * 1000 (line 17). -/
def MIN_DURATION_MS : Nat := 60 * 1000

/-- Configuration constant self.MAX_DURATION_MS = 30 * 60 * 1000 (line 18). -/
def MAX_DURATION_MS : Nat := 30 * 60 * 1000

/-- Configuration constant self.OVERLAP_DURATION = 1000 (line 19). -/
def OVERLAP_DURATION : Nat := 1000

/-- Python str.lower, restricted to the ASCII letter range. -/
def toLowerChar (c : Char) : Char :=
  if 'A' ≤ c ∧ c ≤ 'Z' then Char.ofNat (c.toNat + 32) else c

/-- Boolean test that pat is an initial run of l (helper for Python's
substring containment operator). -/
def prefixAt : Str → Str → Bool
  | [], _ => true
  | _ :: _, [] => false
  | a :: as, b :: bs => a == b && prefixAt as bs

/-- Python's substring containment test: pat occurs somewhere in l. -/
def containsSub (pat : Str) : Str → Bool
  | [] => prefixAt pat []
  | c :: cs => prefixAt pat (c :: cs) || containsSub pat cs

/-- The overlap marker looked up by _should_overlap (line 23). -/
def marker : Str := "[overlap]".toList

/-- Embedding of _should_overlap (lines 21-23): the marker is contained in
text.lower(). -/
def should_overlap (text : Str) : Bool :=
  containsSub marker (text.map toLowerChar)

/-- Linear amplitude ramp over the first d samples, with i the index of the
first sample of the current suffix. -/
def fadeInGo (d : Nat) : Nat → List Int → List Int
  | _, [] => []
  | i, s :: rest =>
      (if i < d then s * (i : Int) / (d : Int) else s) :: fadeInGo d (i + 1) rest

/-- Embedding of pydub segment.fade_in(d): amplitude ramps up over the first
d ms, the rest of the buffer is untouched. -/
def fade_in (d : Nat) (a : List Int) : List Int := fadeInGo d 0 a

/-- Embedding of pydub segment.fade_out(d): amplitude ramps down over the
last d ms, the rest of the buffer is untouched. -/
def fade_out (d : Nat) (a : List Int) : List Int := (fade_in d a.reverse).reverse

/-- Embedding of pydub AudioSegment.silent(duration=d): d ms of zeros. -/
def silent (d : Nat) : List Int := List.replicate d 0

/-- Embedding of pydub a.overlay(b): sample-wise addition; the result keeps
the receiver a's length, and samples of b beyond a's end are discarded
(pydub truncates the overlaid segment to the receiver). -/
def overlay : List Int → List Int → List Int
  | [], _ => []
  | a, [] => a
  | x :: xs, y :: ys => (x + y) :: overlay xs ys

/-- Track-in-progress: the growing final_track plus current_position in ms
(lines 50-51). -/
structure TrackState where
  track : List Int
  pos : Nat
deriving Repr, DecidableEq

/-- One iteration of the merge loop for a non-first segment (lines 59-80).
Python's max(0, current_position - self.OVERLAP_DURATION) is computed over
the integers and then used as a nonnegative index. -/
def mergeStep (st : TrackState) (p : List Int × Str) : TrackState :=
  if should_overlap p.2 then
    let overlap_position : Nat :=
      (max 0 ((st.pos : Int) - (OVERLAP_DURATION : Int))).toNat
    let temp_track := st.track.take overlap_position
    let overlap_segment := fade_in 300 p.1
    let overlap_portion :=
      (st.track.drop overlap_position).take (st.pos - overlap_position)
    let mixed_overlap := overlay overlap_portion (overlap_segment.take OVERLAP_DURATION)
    let final_track := temp_track ++ mixed_overlap ++ p.1.drop OVERLAP_DURATION
    ⟨final_track, final_track.length⟩
  else
    let final_track := st.track ++ silent 300 ++ p.1
    ⟨final_track, final_track.length⟩

/-- The loop of lines 53-80 after the first segment has been consumed. -/
def composeLoop : TrackState → List (List Int × Str) → TrackState
  | st, [] => st
  | st, p :: rest => composeLoop (mergeStep st p) rest

/-- The whole compositor loop (lines 50-80): the first segment initializes
the track verbatim, its text being ignored, and the remaining segments are
folded in by mergeStep. -/
def compose : List (List Int × Str) → TrackState
  | [] => ⟨[], 0⟩
  | (seg, _) :: rest => composeLoop ⟨seg, seg.length⟩ rest

/-- Text paired with the audio file of index i (lines 44-47): the dialogue
entry's second component when the dialogue list is present (Python None and
the empty list are both falsy) and long enough, the empty string otherwise. -/
def segText (dialogue : Option (List (Str × Str))) (i : Nat) : Str :=
  match dialogue with
  | none => []
  | some d => (d.getD i ([], [])).2

/-- Per-segment preprocessing (line 41): segment.fade_in(100).fade_out(100). -/
def preprocess (f : List Int) : List Int := fade_out 100 (fade_in 100 f)

/-- Loading loop of lines 35-47, carrying the running index of enumerate:
each decoded buffer is faded and paired with its dialogue text. -/
def pairSegmentsFrom (dialogue : Option (List (Str × Str))) :
    Nat → List (List Int) → List (List Int × Str)
  | _, [] => []
  | i, f :: fs => (preprocess f, segText dialogue i) :: pairSegmentsFrom dialogue (i + 1) fs

/-- Duration normalization (lines 82-91): pad with silence up to the
minimum, or truncate to the maximum and fade out 2000 ms. -/
def normalize (track : List Int) : List Int :=
  let duration_ms := track.length
  if duration_ms < MIN_DURATION_MS then
    track ++ silent (MIN_DURATION_MS - duration_ms)
  else if duration_ms > MAX_DURATION_MS then
    fade_out 2000 (track.take MAX_DURATION_MS)
  else
    track

/-- Embedding of merge_audio (lines 25-110), modulo the codec and
filesystem adapters: audio files arrive as decoded sample buffers, the
unique-filename export is dropped, and the guard of lines 30-31 is the
error case. -/
def merge_audio (audio_files : List (List Int))
    (dialogue : Option (List (Str × Str))) : Except String (List Int) :=
  if audio_files = [] then
    Except.error "No audio files provided"
  else
    Except.ok (normalize (compose (pairSegmentsFrom dialogue 0 audio_files)).track)

/-- Embedding of Python timedelta(milliseconds=ms).seconds: whole seconds
with whole days discarded (line 136). -/
def timedeltaSeconds (ms : Nat) : Nat := ms / 1000 % 86400

/-- Minutes component of get_audio_duration (line 139). -/
def duration_minutes (ms : Nat) : Nat := timedeltaSeconds ms / 60

/-- Seconds component of get_audio_duration (line 140). -/
def duration_seconds (ms : Nat) : Nat := timedeltaSeconds ms % 60

/-- Embedding of get_audio_duration (lines 127-141) on a stored file whose
decoded length is ms milliseconds. -/
def get_audio_duration (ms : Nat) : String :=
  toString (duration_minutes ms) ++ "m" ++ toString (duration_seconds ms) ++ "s"

/-- Modelled from the spec: the overlap-placement step of the Compositor as
the spec's algorithm words it (split at overlap_start into a prefix and a
tail, fade the new segment in, overlay its first window onto the tail,
rebuild, advance the position to the new total length). Used to compare the
spec's description against mergeStep. -/
def overlapStepSpec (track seg : List Int) : TrackState :=
  let p := track.length
  let overlap_start : Nat := (max 0 ((p : Int) - 1000)).toNat
  let pre := track.take overlap_start
  let tail := track.drop overlap_start
  let faded := fade_in 300 seg
  let mixed_tail := overlay tail (faded.take 1000)
  let rebuilt := pre ++ mixed_tail ++ faded.drop 1000
  ⟨rebuilt, rebuilt.length⟩

/-! Helper lemmas about the embedded pydub operations. -/

/-- Overlaying keeps the length of the receiver. -/
theorem overlay_length (a b : List Int) : (overlay a b).length = a.length := by
  induction a generalizing b with
  | nil => cases b <;> rfl
  | cons x xs ih =>
      cases b with
      | nil => rfl
      | cons y ys => simp [overlay, ih]

/-- Overlaying adds samples position-wise inside the receiver. -/
theorem overlay_getD (a b : List Int) (i : Nat) (h : i < a.length) :
    (overlay a b).getD i 0 = a.getD i 0 + b.getD i 0 := by
  induction a generalizing b i with
  | nil => simp at h
  | cons x xs ih =>
      cases b with
      | nil =>
          cases i with
          | zero => simp [overlay]
          | succ j => simp [overlay]
      | cons y ys =>
          cases i with
          | zero => simp [overlay]
          | succ j =>
              simp only [overlay, List.getD_cons_succ]
              exact ih ys j (by simpa using h)

theorem fadeInGo_length (d : Nat) (i : Nat) (a : List Int) :
    (fadeInGo d i a).length = a.length := by
  induction a generalizing i with
  | nil => rfl
  | cons s rest ih => simp [fadeInGo, ih]

theorem fade_in_length (d : Nat) (a : List Int) : (fade_in d a).length = a.length :=
  fadeInGo_length d 0 a

theorem fade_out_length (d : Nat) (a : List Int) : (fade_out d a).length = a.length := by
  simp [fade_out, fade_in_length]

/-- A fade whose window already lies entirely to the left is the identity. -/
theorem fadeInGo_of_le (d : Nat) (i : Nat) (a : List Int) (h : d ≤ i) :
    fadeInGo d i a = a := by
  induction a generalizing i with
  | nil => rfl
  | cons s rest ih =>
      simp only [fadeInGo, if_neg (by omega : ¬ i < d)]
      rw [ih (i + 1) (by omega)]

/-- Dropping past the fade window recovers the original samples. -/
theorem fadeInGo_drop (d : Nat) (i n : Nat) (a : List Int) (h : d ≤ i + n) :
    (fadeInGo d i a).drop n = a.drop n := by
  induction a generalizing i n with
  | nil => simp [fadeInGo]
  | cons s rest ih =>
      cases n with
      | zero =>
          simp only [List.drop_zero]
          exact fadeInGo_of_le d i (s :: rest) (by omega)
      | succ m =>
          simp only [fadeInGo, List.drop_succ_cons]
          exact ih (i + 1) m (by omega)

theorem fade_in_drop (d n : Nat) (a : List Int) (h : d ≤ n) :
    (fade_in d a).drop n = a.drop n :=
  fadeInGo_drop d 0 n a (by omega)

/-- Taking exactly the remaining length after a drop is the whole drop. -/
theorem drop_take_len (l : List Int) (x : Nat) :
    (l.drop x).take (l.length - x) = l.drop x := by
  rw [← List.length_drop]
  exact List.take_length _

/-- The merge loop always leaves current_position equal to the track length. -/
theorem mergeStep_pos (st : TrackState) (p : List Int × Str) :
    (mergeStep st p).pos = (mergeStep st p).track.length := by
  unfold mergeStep
  split <;> rfl

theorem silent_length (d : Nat) : (silent d).length = d := List.length_replicate d 0

/-- The non-overlap branch of the merge loop, on any state. -/
theorem mergeStep_gap (st : TrackState) (seg : List Int) (text : Str)
    (h : should_overlap text = false) :
    mergeStep st (seg, text)
      = ⟨st.track ++ silent 300 ++ seg, st.track.length + 300 + seg.length⟩ := by
  have hlen : (st.track ++ silent 300 ++ seg).length
      = st.track.length + 300 + seg.length := by
    rw [List.length_append, List.length_append, silent_length]
  unfold mergeStep
  rw [if_neg (by simp [h])]
  exact congrArg (TrackState.mk (st.track ++ silent 300 ++ seg)) hlen

/-- Characterization of the prefix test. -/
theorem prefixAt_iff (pat : Str) : ∀ l : Str,
    prefixAt pat l = true ↔ l.take pat.length = pat := by
  induction pat with
  | nil => intro l; simp [prefixAt]
  | cons a as ih =>
      intro l
      cases l with
      | nil => simp [prefixAt]
      | cons b bs =>
          simp only [prefixAt, Bool.and_eq_true, beq_iff_eq, List.length_cons,
            List.take_succ_cons, List.cons.injEq, ih]
          exact and_congr_left (fun _ => eq_comm)

/-- Characterization of Python's substring containment. -/
theorem containsSub_iff (pat : Str) : ∀ l : Str,
    containsSub pat l = true ↔ ∃ i, (l.drop i).take pat.length = pat := by
  intro l
  induction l with
  | nil =>
      rw [containsSub, prefixAt_iff]
      constructor
      · intro h; exact ⟨0, h⟩
      · rintro ⟨i, h⟩; simpa [List.drop_nil] using h
  | cons c cs ih =>
      rw [containsSub, Bool.or_eq_true, prefixAt_iff, ih]
      constructor
      · rintro (h | ⟨i, h⟩)
        · exact ⟨0, h⟩
        · exact ⟨i + 1, h⟩
      · rintro ⟨i, h⟩
        cases i with
        | zero => exact Or.inl h
        | succ j => exact Or.inr ⟨j, h⟩

/-- Mapping a character function commutes with taking a slice. -/
theorem map_slice (f : Char → Char) (l : Str) (i n : Nat) :
    ((l.map f).drop i).take n = ((l.drop i).take n).map f := by
  rw [List.map_take, List.map_drop]

/-- The overlap branch of the merge loop, started from a state whose
position is the track's length, agrees with the spec's description of the
overlap-placement step. -/
theorem mergeStep_overlap (track seg : List Int) (text : Str)
    (h : should_overlap text = true) :
    mergeStep ⟨track, track.length⟩ (seg, text) = overlapStepSpec track seg := by
  unfold mergeStep overlapStepSpec
  rw [if_pos (by simp [h])]
  simp only [OVERLAP_DURATION]
  rw [drop_take_len]
  rw [fade_in_drop 300 1000 seg (by omega)]
  norm_cast

/-- Each merge-loop step, from a position-consistent state, never shrinks
the track. -/
theorem mergeStep_length_mono (t : List Int) (p : List Int × Str) :
    t.length ≤ (mergeStep ⟨t, t.length⟩ p).track.length := by
  unfold mergeStep
  split
  · simp only [List.length_append, List.length_take, List.length_drop,
      overlay_length, List.length_take]
    generalize (max 0 ((t.length : Int) - (OVERLAP_DURATION : Int))).toNat = x
    omega
  · simp only [List.length_append, silent_length]
    omega

/-- Folding further segments into a position-consistent state never shrinks
the track. -/
theorem composeLoop_length_mono (rest : List (List Int × Str)) :
    ∀ st : TrackState, st.pos = st.track.length →
      st.track.length ≤ (composeLoop st rest).track.length := by
  induction rest with
  | nil => intro st _; exact Nat.le_refl _
  | cons p ps ih =>
      intro st hst
      obtain ⟨tr, pos⟩ := st
      simp only at hst
      subst hst
      calc tr.length ≤ (mergeStep ⟨tr, tr.length⟩ p).track.length :=
            mergeStep_length_mono tr p
        _ ≤ (composeLoop (mergeStep ⟨tr, tr.length⟩ p) ps).track.length :=
            ih (mergeStep ⟨tr, tr.length⟩ p) (mergeStep_pos _ _)

/-- Texts indexed past the head of the dialogue list are read off the tail,
independently of the head entry. -/
theorem pairSegmentsFrom_tail_text (sp sp2 t t2 : Str) (ds : List (Str × Str))
    (fs : List (List Int)) :
    ∀ i : Nat, pairSegmentsFrom (some ((sp, t) :: ds)) (i + 1) fs
      = pairSegmentsFrom (some ((sp2, t2) :: ds)) (i + 1) fs := by
  induction fs with
  | nil => intro i; rfl
  | cons f fs ih =>
      intro i
      simp only [pairSegmentsFrom, segText, List.getD_cons_succ]
      rw [ih (i + 1)]

/-! Claim theorems. -/

/-- C1: For a track-in-progress whose current position is its length and an
overlap-flagged subsequent segment, the Compositor computes the clamped,
never-negative overlap start max(0, p - 1000), splits the track there into
a prefix and a tail, fades the new segment in by 300 ms, additively
overlays its first 1000 ms onto the tail, rebuilds the track as
prefix + mixed tail + the segment's samples from 1000 ms onward, and sets
the position to the new total length; this is total, with no error case
even when the track is shorter than 1000 ms. -/
theorem overlap_step_matches_spec (track seg : List Int) (text : Str)
    (h : should_overlap text = true) :
    mergeStep ⟨track, track.length⟩ (seg, text) = overlapStepSpec track seg ∧
    (0 : Int) ≤ max 0 ((track.length : Int) - (OVERLAP_DURATION : Int)) ∧
    (mergeStep ⟨track, track.length⟩ (seg, text)).pos
      = (mergeStep ⟨track, track.length⟩ (seg, text)).track.length :=
  ⟨mergeStep_overlap track seg text h, le_max_left 0 _, mergeStep_pos _ _⟩

/-- Witness for C1 on a 1 ms track (shorter than the overlap window, so the
clamp to zero is exercised) and a 2 ms overlap-marked segment. -/
theorem overlap_step_matches_spec_witness :
    should_overlap ("[overlap]".toList) = true ∧
    (mergeStep ⟨[(1:Int)], [(1:Int)].length⟩ ([(5:Int), 6], "[overlap]".toList)
        = overlapStepSpec [(1:Int)] [(5:Int), 6] ∧
      (0 : Int) ≤ max 0 (([(1:Int)].length : Int) - (OVERLAP_DURATION : Int)) ∧
      (mergeStep ⟨[(1:Int)], [(1:Int)].length⟩ ([(5:Int), 6], "[overlap]".toList)).pos
        = (mergeStep ⟨[(1:Int)], [(1:Int)].length⟩
            ([(5:Int), 6], "[overlap]".toList)).track.length) :=
  ⟨by decide, overlap_step_matches_spec [1] [5, 6] ("[overlap]".toList) (by decide)⟩

/-- C2 counterexample: the overlay used by the Compositor keeps the
receiver's length rather than the maximum of the two lengths; overlaying a
2 ms buffer onto a 1 ms tail yields 1 ms, not max 1 2 = 2. -/
theorem overlay_max_length_cex :
    ¬ ((overlay [(0:Int)] [1, 1]).length
        = max [(0:Int)].length ([1, 1] : List Int).length) := by
  decide

/-- C2 (amended): the additive overlay returns a buffer whose length equals
the first (receiver) buffer's length; within it samples add position-wise,
the shorter buffer contributing zero beyond its end, and samples of the
overlaid buffer past the receiver's end are discarded. -/
theorem overlay_keeps_receiver_length (a b : List Int) (i : Nat)
    (h : i < a.length) :
    (overlay a b).length = a.length ∧
    (overlay a b).getD i 0 = a.getD i 0 + b.getD i 0 :=
  ⟨overlay_length a b, overlay_getD a b i h⟩

/-- Witness for the amended C2 at index 1, past the end of the shorter
overlaid buffer. -/
theorem overlay_keeps_receiver_length_witness :
    (1 : Nat) < [(3:Int), 4].length ∧
    ((overlay [(3:Int), 4] [10]).length = [(3:Int), 4].length ∧
      (overlay [(3:Int), 4] [10]).getD 1 0
        = [(3:Int), 4].getD 1 0 + ([10] : List Int).getD 1 0) :=
  ⟨by decide, overlay_keeps_receiver_length [3, 4] [10] 1 (by decide)⟩

/-- C3: the Duration Normalizer returns a track of length exactly
MIN_DURATION_MS, obtained by appending that much digital silence, when the
input is shorter; a track of length exactly MAX_DURATION_MS with a 2000 ms
fade-out on the truncated buffer when the input is longer; and the track
unchanged otherwise. -/
theorem normalizer_duration_clamp (track : List Int) :
    ((normalize track).length =
      if track.length < MIN_DURATION_MS then MIN_DURATION_MS
      else if track.length > MAX_DURATION_MS then MAX_DURATION_MS
      else track.length) ∧
    (track.length < MIN_DURATION_MS →
      normalize track = track ++ silent (MIN_DURATION_MS - track.length)) ∧
    (track.length > MAX_DURATION_MS →
      normalize track = fade_out 2000 (track.take MAX_DURATION_MS)) ∧
    (MIN_DURATION_MS ≤ track.length → track.length ≤ MAX_DURATION_MS →
      normalize track = track) := by
  by_cases h1 : track.length < MIN_DURATION_MS
  · have hn : normalize track = track ++ silent (MIN_DURATION_MS - track.length) := by
      simp only [normalize]
      rw [if_pos h1]
    have h2 : ¬ track.length > MAX_DURATION_MS := by
      have : MIN_DURATION_MS ≤ MAX_DURATION_MS := by decide
      omega
    refine ⟨?_, fun _ => hn, fun hc => absurd hc h2, fun hc _ => absurd h1 (by omega)⟩
    rw [hn, if_pos h1, List.length_append, silent_length]
    omega
  · by_cases h2 : track.length > MAX_DURATION_MS
    · have hn : normalize track = fade_out 2000 (track.take MAX_DURATION_MS) := by
        simp only [normalize]
        rw [if_neg h1, if_pos h2]
      refine ⟨?_, fun hc => absurd hc h1, fun _ => hn, fun _ hc => absurd h2 (by omega)⟩
      rw [hn, if_neg h1, if_pos h2, fade_out_length, List.length_take]
      omega
    · have hn : normalize track = track := by
        simp only [normalize]
        rw [if_neg h1, if_neg h2]
      refine ⟨?_, fun hc => absurd hc h1, fun hc => absurd hc h2, fun _ _ => hn⟩
      rw [hn, if_neg h1, if_neg h2]

/-- Witness for C3 on a 500 ms track (padded to the minimum), a
1,800,001 ms track (truncated to the maximum), and a 600,000 ms track
(returned unchanged). -/
theorem normalizer_duration_clamp_witness :
    (normalize (List.replicate 500 (1:Int))).length = MIN_DURATION_MS ∧
    (normalize (List.replicate 1800001 (1:Int))).length = MAX_DURATION_MS ∧
    normalize (List.replicate 600000 (1:Int)) = List.replicate 600000 (1:Int) := by
  refine ⟨?_, ?_, ?_⟩
  · have h := (normalizer_duration_clamp (List.replicate 500 (1:Int))).1
    rw [h, List.length_replicate]
    decide
  · have h := (normalizer_duration_clamp (List.replicate 1800001 (1:Int))).1
    rw [h, List.length_replicate]
    decide
  · exact (normalizer_duration_clamp (List.replicate 600000 (1:Int))).2.2.2
      (by rw [List.length_replicate]; decide)
      (by rw [List.length_replicate]; decide)

/-- C4: folding a further segment into a position-consistent
track-in-progress never decreases the track's length, whatever the
segment's overlap flag and length, and the same holds across the remaining
fold. -/
theorem compositor_length_monotone (t seg : List Int) (text : Str)
    (rest : List (List Int × Str)) :
    t.length ≤ (mergeStep ⟨t, t.length⟩ (seg, text)).track.length ∧
    t.length ≤ (composeLoop ⟨t, t.length⟩ ((seg, text) :: rest)).track.length := by
  refine ⟨mergeStep_length_mono t (seg, text), ?_⟩
  show t.length ≤ (composeLoop (mergeStep ⟨t, t.length⟩ (seg, text)) rest).track.length
  calc t.length ≤ (mergeStep ⟨t, t.length⟩ (seg, text)).track.length :=
        mergeStep_length_mono t (seg, text)
    _ ≤ _ := composeLoop_length_mono rest _ (mergeStep_pos _ _)

/-- C5: for a non-overlap segment the Compositor appends exactly 300 ms of
silence and then the segment, and the current position advances to
previous length + 300 + segment length. -/
theorem gap_step_appends (t seg : List Int) (text : Str)
    (h : should_overlap text = false) :
    mergeStep ⟨t, t.length⟩ (seg, text)
      = ⟨t ++ silent 300 ++ seg, t.length + 300 + seg.length⟩ :=
  mergeStep_gap ⟨t, t.length⟩ seg text h

/-- Witness for C5 on a 1 ms track and a 1 ms unmarked segment. -/
theorem gap_step_appends_witness :
    should_overlap ("hi".toList) = false ∧
    mergeStep ⟨[(1:Int)], [(1:Int)].length⟩ ([(2:Int)], "hi".toList)
      = ⟨[(1:Int)] ++ silent 300 ++ [(2:Int)], [(1:Int)].length + 300 + [(2:Int)].length⟩ :=
  ⟨by decide, gap_step_appends [1] [2] ("hi".toList) (by decide)⟩

/-- C6: merging a zero-length list of audio files fails with the
empty-input error and produces no output track, while any list of length
at least one yields a track and not this error. -/
theorem empty_input_error (d : Option (List (Str × Str)))
    (files : List (List Int)) (h : files ≠ []) :
    merge_audio [] d = Except.error "No audio files provided" ∧
    ∃ t, merge_audio files d = Except.ok t := by
  constructor
  · rfl
  · cases files with
    | nil => exact absurd rfl h
    | cons f fs =>
        refine ⟨normalize (compose (pairSegmentsFrom d 0 (f :: fs))).track, ?_⟩
        unfold merge_audio
        rw [if_neg (by simp)]

/-- Witness for C6 with a single one-sample input file. -/
theorem empty_input_error_witness :
    ([[(1:Int)]] ≠ ([] : List (List Int))) ∧
    (merge_audio [] none = Except.error "No audio files provided" ∧
      ∃ t, merge_audio [[(1:Int)]] none = Except.ok t) :=
  ⟨by simp, empty_input_error none [[(1:Int)]] (by simp)⟩

/-- C7: the derived is_overlap property holds exactly when the text
contains the marker string case-insensitively anywhere, and in particular
a text carrying only a pause-style marker is not flagged. -/
theorem overlap_marker_detection :
    (∀ text : Str, should_overlap text = true ↔
      ∃ i, ((text.drop i).take marker.length).map toLowerChar = marker) ∧
    should_overlap ("Wait [pause] go on".toList) = false ∧
    should_overlap ("sure [OverLap] yes".toList) = true := by
  refine ⟨fun text => ?_, by decide, by decide⟩
  rw [should_overlap, containsSub_iff]
  constructor
  · rintro ⟨i, h⟩
    exact ⟨i, by rw [← map_slice]; exact h⟩
  · rintro ⟨i, h⟩
    exact ⟨i, by rw [map_slice]; exact h⟩

/-- C8 counterexample: a stored file of 86,400,000 ms (24 hours) lasts at
least 60 minutes, yet its label reports 0 minutes and reads "0m0s",
because the embedded timedelta seconds field discards whole days; so the
universal claim that durations of at least 60 minutes report at least 60
minutes is false on the code. -/
theorem duration_label_day_wrap_cex :
    (60 * 60000 ≤ 86400000 ∧ get_audio_duration 86400000 = "0m0s") ∧
    ¬ (60 ≤ duration_minutes 86400000) := by
  decide

/-- C8 (amended): the duration label is minutes and remainder seconds with
no hours component, a 125,000 ms track reads "2m5s" and a 3,600,000 ms
track reads "60m0s"; durations of at least 60 minutes report at least 60
minutes provided the duration is below 24 hours, where the minutes count
wraps. -/
theorem duration_label_amended (ms : Nat) (h1 : 60 * 60000 ≤ ms)
    (h2 : ms < 86400000) :
    get_audio_duration 125000 = "2m5s" ∧
    get_audio_duration 3600000 = "60m0s" ∧
    60 ≤ duration_minutes ms ∧ duration_seconds ms < 60 := by
  refine ⟨by decide, by decide, ?_, ?_⟩
  · unfold duration_minutes timedeltaSeconds
    omega
  · unfold duration_seconds timedeltaSeconds
    omega

/-- Witness for the amended C8 at exactly one hour. -/
theorem duration_label_amended_witness :
    (60 * 60000 ≤ 3600000 ∧ 3600000 < 86400000) ∧
    (get_audio_duration 125000 = "2m5s" ∧
      get_audio_duration 3600000 = "60m0s" ∧
      60 ≤ duration_minutes 3600000 ∧ duration_seconds 3600000 < 60) :=
  ⟨by decide, duration_label_amended 3600000 (by decide) (by decide)⟩

/-- C9: the merged output is identical whatever the first dialogue entry's
text (and speaker), the compositor initializes the track to the first
segment verbatim with the position at its length while ignoring its text,
and a non-empty input raises no error. -/
theorem first_segment_text_ignored (f : List Int) (fs : List (List Int))
    (sp sp2 t t2 : Str) (ds : List (Str × Str))
    (s1 : List Int) (rest : List (List Int × Str)) :
    merge_audio (f :: fs) (some ((sp, t) :: ds))
      = merge_audio (f :: fs) (some ((sp2, t2) :: ds)) ∧
    compose ((s1, t) :: rest) = composeLoop ⟨s1, s1.length⟩ rest ∧
    ∃ out, merge_audio (f :: fs) (some ((sp, t) :: ds)) = Except.ok out := by
  refine ⟨?_, rfl, ?_⟩
  · unfold merge_audio
    rw [if_neg (by simp), if_neg (by simp)]
    simp only [pairSegmentsFrom]
    rw [pairSegmentsFrom_tail_text sp sp2 t t2 ds fs 0]
    rfl
  · refine ⟨normalize (compose (pairSegmentsFrom (some ((sp, t) :: ds)) 0 (f :: fs))).track, ?_⟩
    unfold merge_audio
    rw [if_neg (by simp)]

/-- C10: an audio segment with no corresponding dialogue entry (absent or
too-short dialogue list) is paired with empty text, its overlap flag is
false, and it is placed sequentially after a 300 ms gap, never
overlapped. -/
theorem missing_dialogue_sequential (d : Option (List (Str × Str))) (i : Nat)
    (t seg : List Int) (h : ∀ l, d = some l → l.length ≤ i) :
    segText d i = [] ∧
    should_overlap (segText d i) = false ∧
    mergeStep ⟨t, t.length⟩ (seg, segText d i)
      = ⟨t ++ silent 300 ++ seg, t.length + 300 + seg.length⟩ := by
  have hempty : segText d i = [] := by
    cases d with
    | none => rfl
    | some l =>
        have hl := h l rfl
        show (l.getD i ([], [])).2 = []
        rw [List.getD_eq_default _ _ hl]
  refine ⟨hempty, ?_, ?_⟩
  · rw [hempty]
    decide
  · rw [hempty]
    exact mergeStep_gap ⟨t, t.length⟩ seg [] (by decide)

/-- Witness for C10 with an absent dialogue list. -/
theorem missing_dialogue_sequential_witness :
    segText (none : Option (List (Str × Str))) 0 = [] ∧
    should_overlap (segText (none : Option (List (Str × Str))) 0) = false ∧
    mergeStep ⟨[(1:Int)], [(1:Int)].length⟩
        ([(2:Int)], segText (none : Option (List (Str × Str))) 0)
      = ⟨[(1:Int)] ++ silent 300 ++ [(2:Int)], [(1:Int)].length + 300 + [(2:Int)].length⟩ :=
  missing_dialogue_sequential none 0 [1] [2] (fun l hl => by cases hl)

end AudioProcessor
